import Mathlib

/-!
Verification of the Anki grammar-correction addon (`src/__init__.py`).

The development shallowly embeds the addon's pure data flow:
  * the JSON values produced by Python's `json.loads` (`JSON`, `json_loads`);
  * the correction schema built in `check_grammar` (`fields_schema`, `json_schema`);
  * configuration lookup (`get_api_key`, `get_model`);
  * the result/message/request behaviour of `check_grammar` with the remote
    call abstracted into an `ApiResult` oracle;
  * the field-application loop of `on_grammar_check` (`applyCorrections`,
    `on_grammar_check`);
  * the snapshot/restore (undo) manager, which is absent from `src/` and is
    therefore modelled from the spec (`snapshot`, `restore`).

Numbers in the JSON model are restricted to integers (the grammar-correction
protocol only ever transports strings and objects); fractional and exponent
forms of `json.loads` are outside the model.
-/

namespace GrammarGPT

/-- JSON values as produced by Python's `json.loads`.  Objects are ordered
association lists; duplicate keys are collapsed at parse time exactly as a
Python `dict` does (last value wins, first position kept). -/
inductive JSON where
  | null : JSON
  | bool : Bool → JSON
  | num : Int → JSON
  | str : String → JSON
  | arr : List JSON → JSON
  | obj : List (String × JSON) → JSON

/-- First-match association-list lookup (Python `dict` access on a
duplicate-free list). -/
def lookupKey {α : Type} (k : String) : List (String × α) → Option α
  | [] => none
  | p :: ps => if p.1 = k then some p.2 else lookupKey k ps

/-- Overwrite the value stored at key `k` (all occurrences); a no-op when the
key is absent, mirroring that the host note's key set is fixed. -/
def setField {α : Type} (l : List (String × α)) (k : String) (v : α) :
    List (String × α) :=
  l.map (fun p => if p.1 = k then (k, v) else p)

/-- Python `dict` insertion: an existing key keeps its position and gets the
new value, a new key is appended. -/
def insertPair (l : List (String × JSON)) (k : String) (v : JSON) :
    List (String × JSON) :=
  if k ∈ l.map Prod.fst then setField l k v else l ++ [(k, v)]

/-- Whitespace skipping of the JSON grammar. -/
def skipWs : List Char → List Char
  | [] => []
  | c :: cs =>
    if c = ' ' ∨ c = '\n' ∨ c = '\t' ∨ c = '\r' then skipWs cs else c :: cs

/-- Value of a hexadecimal digit character. -/
def hexVal (c : Char) : Option Nat :=
  if '0' ≤ c ∧ c ≤ '9' then some (c.toNat - 48)
  else if 'a' ≤ c ∧ c ≤ 'f' then some (c.toNat - 87)
  else if 'A' ≤ c ∧ c ≤ 'F' then some (c.toNat - 55)
  else none

/-- JSON string-body scanner: consumes characters up to and including the
closing quote, decoding escape sequences; rejects raw control characters
(`json.loads` is strict).  The fuel bounds the recursion depth; callers pass
at least `input length + 1`, which always suffices. -/
def pStrAux : Nat → List Char → Option (List Char × List Char)
  | 0, _ => none
  | _ + 1, [] => none
  | fuel + 1, c :: cs =>
    if c = '"' then some ([], cs)
    else if c = '\\' then
      match cs with
      | [] => none
      | e :: cs2 =>
        if e = '"' then (pStrAux fuel cs2).map (fun r => ('"' :: r.1, r.2))
        else if e = '\\' then (pStrAux fuel cs2).map (fun r => ('\\' :: r.1, r.2))
        else if e = '/' then (pStrAux fuel cs2).map (fun r => ('/' :: r.1, r.2))
        else if e = 'n' then (pStrAux fuel cs2).map (fun r => ('\n' :: r.1, r.2))
        else if e = 't' then (pStrAux fuel cs2).map (fun r => ('\t' :: r.1, r.2))
        else if e = 'r' then (pStrAux fuel cs2).map (fun r => ('\r' :: r.1, r.2))
        else if e = 'b' then (pStrAux fuel cs2).map (fun r => ('\x08' :: r.1, r.2))
        else if e = 'f' then (pStrAux fuel cs2).map (fun r => ('\x0c' :: r.1, r.2))
        else if e = 'u' then
          match cs2 with
          | h1 :: h2 :: h3 :: h4 :: cs3 =>
            match hexVal h1, hexVal h2, hexVal h3, hexVal h4 with
            | some a, some b, some c1, some d =>
              let n := ((a * 16 + b) * 16 + c1) * 16 + d
              if n < 55296 then
                (pStrAux fuel cs3).map (fun r => (Char.ofNat n :: r.1, r.2))
              else none
            | _, _, _, _ => none
          | _ => none
        else none
    else if c.toNat < 32 then none
    else (pStrAux fuel cs).map (fun r => (c :: r.1, r.2))

/-- Split a maximal run of decimal digits from the front of the input. -/
def pDigits : List Char → List Char × List Char
  | [] => ([], [])
  | c :: cs =>
    if c.isDigit then
      let r := pDigits cs
      (c :: r.1, r.2)
    else ([], c :: cs)

/-- Numeric value of a digit run. -/
def digitsToNat : List Char → Nat
  | [] => 0
  | c :: cs => digitsToNat cs + (c.toNat - 48) * 10 ^ cs.length

mutual

/-- Fueled recursive-descent JSON parser modelling `json.loads` (integral
numbers only).  Consumes leading whitespace and one JSON value. -/
def pValue : Nat → List Char → Option (JSON × List Char)
  | 0, _ => none
  | fuel + 1, l =>
    match skipWs l with
    | [] => none
    | c :: cs =>
      if c = '{' then
        match skipWs cs with
        | '}' :: cs2 => some (.obj [], cs2)
        | cs2 => pMembers fuel cs2 []
      else if c = '[' then
        match skipWs cs with
        | ']' :: cs2 => some (.arr [], cs2)
        | cs2 => pElems fuel cs2 []
      else if c = '"' then
        match pStrAux (cs.length + 1) cs with
        | some (s, cs2) => some (.str ⟨s⟩, cs2)
        | none => none
      else if c = 't' then
        match cs with
        | 'r' :: 'u' :: 'e' :: cs2 => some (.bool true, cs2)
        | _ => none
      else if c = 'f' then
        match cs with
        | 'a' :: 'l' :: 's' :: 'e' :: cs2 => some (.bool false, cs2)
        | _ => none
      else if c = 'n' then
        match cs with
        | 'u' :: 'l' :: 'l' :: cs2 => some (.null, cs2)
        | _ => none
      else if c = '-' then
        match pDigits cs with
        | ([], _) => none
        | (ds, cs2) => some (.num (-(digitsToNat ds : Int)), cs2)
      else if c.isDigit then
        match pDigits (c :: cs) with
        | (ds, cs2) => some (.num (digitsToNat ds : Int), cs2)
      else none

/-- Parse the members of a JSON object after the opening brace (first member
expected); accumulates with Python `dict` insertion semantics. -/
def pMembers : Nat → List Char → List (String × JSON) →
    Option (JSON × List Char)
  | 0, _, _ => none
  | fuel + 1, l, acc =>
    match skipWs l with
    | '"' :: cs =>
      match pStrAux (cs.length + 1) cs with
      | some (k, cs1) =>
        match skipWs cs1 with
        | ':' :: cs2 =>
          match pValue fuel cs2 with
          | some (v, cs3) =>
            match skipWs cs3 with
            | ',' :: cs4 => pMembers fuel cs4 (insertPair acc ⟨k⟩ v)
            | '}' :: cs4 => some (.obj (insertPair acc ⟨k⟩ v), cs4)
            | _ => none
          | none => none
        | _ => none
      | none => none
    | _ => none

/-- Parse the elements of a JSON array after the opening bracket (first
element expected). -/
def pElems : Nat → List Char → List JSON → Option (JSON × List Char)
  | 0, _, _ => none
  | fuel + 1, l, acc =>
    match pValue fuel l with
    | some (v, cs) =>
      match skipWs cs with
      | ',' :: cs2 => pElems fuel cs2 (acc ++ [v])
      | ']' :: cs2 => some (.arr (acc ++ [v]), cs2)
      | _ => none
    | none => none

end

/-- `json.loads`: parse one JSON value and require only whitespace to
remain.  Returns `none` where Python raises `json.JSONDecodeError`. -/
def json_loads (s : String) : Option JSON :=
  match pValue (s.data.length + 2) s.data with
  | some (j, rest) => if skipWs rest = [] then some j else none
  | none => none

/-- One property of the correction schema: `{"type": "string", "description":
"Corrected text for field: X"}`. -/
structure FieldProp where
  type : String
  description : String
deriving DecidableEq

/-- Inner `corrected_fields` object schema of `check_grammar`. -/
structure InnerSchema where
  type : String
  properties : List (String × FieldProp)
  required : List String
  additionalProperties : Bool
deriving DecidableEq

/-- Top-level `json_schema` dictionary of `check_grammar`. -/
structure CorrectionSchema where
  name : String
  type : String
  corrected_fields : InnerSchema
  required : List String
  additionalProperties : Bool
deriving DecidableEq

/-- `fields_schema` comprehension of `check_grammar`: one string property per
field name, in note order (note field names are unique, so the Python dict
comprehension collapses nothing). -/
def fields_schema (fields : List (String × String)) :
    List (String × FieldProp) :=
  fields.map (fun p =>
    (p.1, ⟨"string", "Corrected text for field: " ++ p.1⟩))

/-- The `json_schema` value built by `check_grammar`: wraps `fields_schema`
with `required = list(fields.keys())` and `additionalProperties = False`. -/
def json_schema (fields : List (String × String)) : CorrectionSchema :=
  { name := "corrected_fields_response"
    type := "object"
    corrected_fields :=
      { type := "object"
        properties := fields_schema fields
        required := fields.map Prod.fst
        additionalProperties := false }
    required := ["corrected_fields"]
    additionalProperties := false }

/-- Addon configuration: the recognized keys of the config dict, `none` when
the key is absent. -/
structure Config where
  api_key : Option String
  model : Option String

/-- `get_api_key`: `config.get("api_key", "")`. -/
def get_api_key (c : Config) : String := c.api_key.getD ""

/-- `get_model`: `config.get("model", "gpt-4o")`. -/
def get_model (c : Config) : String := c.model.getD "gpt-4o"

/-- Whether `pat` occurs as a contiguous substring of `s` (Python `in`). -/
def containsSub (s pat : String) : Bool :=
  let rec go : List Char → Bool
    | [] => pat.data.isPrefixOf []
    | c :: cs => pat.data.isPrefixOf (c :: cs) || go cs
  go s.data

/-- Outcome of the single `openai.chat.completions.create` call, abstracting
the remote endpoint: the raw text of `choices[0].message.content`, a
`BadRequestError`, or any other raised exception (connection failure,
rate-limit rejection, non-2xx status, ...). -/
inductive ApiResult where
  | success (content : String)
  | badRequest (emsg : String)
  | exn (emsg : String)

/-- Observable outcome of one `check_grammar` call: the returned value
(`none` is Python `None`), the `showInfo` messages displayed, and whether the
remote request was sent. -/
structure CheckOutcome where
  result : Option JSON
  infoMessages : List String
  requestSent : Bool

/-- `check_grammar`: checks the credential before sending, builds the schema
and messages, performs the single API call, parses the response with
`json.loads`, and returns `corrected_data.get("corrected_fields", {})`.
Every listed error path is caught and converted to a `showInfo` message plus
a `None` result. -/
def check_grammar (cfg : Config) (fields : List (String × String))
    (api : ApiResult) : CheckOutcome :=
  let api_key := get_api_key cfg
  if api_key = "" then
    { result := none
      infoMessages := ["Please set your OpenAI API key in the add-on config."]
      requestSent := false }
  else
    let _ := json_schema fields
    match api with
    | .success content =>
      match json_loads content with
      | some (.obj kvs) =>
        { result := some ((lookupKey "corrected_fields" kvs).getD (.obj []))
          infoMessages := []
          requestSent := true }
      | some _ =>
        -- `.get` on a non-dict raises AttributeError, caught by the generic
        -- `except Exception` handler.
        { result := none
          infoMessages := ["Error during grammar check: AttributeError"]
          requestSent := true }
      | none =>
        { result := none
          infoMessages := ["Error during grammar check: JSONDecodeError"]
          requestSent := true }
    | .badRequest e =>
      if containsSub e.toLower "refusal" then
        { result := none
          infoMessages :=
            ["The model refused to process the request, likely due to safety reasons."]
          requestSent := true }
      else
        { result := none
          infoMessages := ["An unexpected error occurred: " ++ e]
          requestSent := true }
    | .exn e =>
      { result := none
        infoMessages := ["Error during grammar check: " ++ e]
        requestSent := true }

/-- Python truthiness of a JSON value (`if corrected_fields:`). -/
def jsonTruthy : JSON → Bool
  | .null => false
  | .bool b => b
  | .num n => n != 0
  | .str s => s != ""
  | .arr [] => false
  | .arr (_ :: _) => true
  | .obj [] => false
  | .obj (_ :: _) => true

/-- Python truthiness of `check_grammar`'s return value. -/
def truthyOpt : Option JSON → Bool
  | none => false
  | some j => jsonTruthy j

/-- The field-update loop of `on_grammar_check`: for each returned item, the
note field is overwritten only when the key is already a field of the note. -/
def applyCorrections {α : Type} (note : List (String × α))
    (corrected : List (String × α)) : List (String × α) :=
  corrected.foldl
    (fun n p => if p.1 ∈ n.map Prod.fst then setField n p.1 p.2 else n) note

/-- `on_grammar_check` after `check_grammar` returns: a falsy result leaves
the note alone (no reload, no tooltip); a truthy dict is applied field by
field, the note is reloaded and the success tooltip shown.  A truthy
non-dict makes `.items()` raise an uncaught AttributeError (`none`).
The triple is (note contents, note reloaded, tooltip shown). -/
def on_grammar_check (note : List (String × JSON)) (cg : Option JSON) :
    Option (List (String × JSON) × Bool × Bool) :=
  if truthyOpt cg then
    match cg with
    | some (.obj kvs) => some (applyCorrections note kvs, true, true)
    | _ => none
  else
    some (note, false, false)

/-- Modelled from the spec: the reserved snapshot field name (the sentinel
key, e.g. "OriginalContent") whose presence in a record gates undo support.
`src/` contains no snapshot/restore code. -/
def reservedFieldName : String := "OriginalContent"

/-- Lower-case hexadecimal digit character for `n < 16`. -/
def hexDigitChar (n : Nat) : Char :=
  if n < 10 then Char.ofNat (48 + n) else Char.ofNat (87 + n)

/-- JSON string-character escaping used by the snapshot serializer: quote,
backslash and the common control characters get two-character escapes, the
remaining control characters get `\u00XY`, everything else is emitted
verbatim. -/
def escChar (c : Char) : List Char :=
  if c = '"' then ['\\', '"']
  else if c = '\\' then ['\\', '\\']
  else if c = '\n' then ['\\', 'n']
  else if c = '\t' then ['\\', 't']
  else if c = '\r' then ['\\', 'r']
  else if c.toNat < 32 then
    ['\\', 'u', '0', '0', hexDigitChar (c.toNat / 16), hexDigitChar (c.toNat % 16)]
  else [c]

/-- Escape every character of a string body. -/
def escList : List Char → List Char
  | [] => []
  | c :: cs => escChar c ++ escList cs

/-- Render one `"key":"value"` member of the snapshot object. -/
def encPair (p : String × String) : List Char :=
  '"' :: escList p.1.data ++ '"' :: ':' :: '"' :: escList p.2.data ++ ['"']

/-- Render the comma-separated members of the snapshot object. -/
def encSnapshotAux : List (String × String) → List Char
  | [] => []
  | [p] => encPair p
  | p :: q :: rest => encPair p ++ ',' :: encSnapshotAux (q :: rest)

/-- Modelled from the spec: serialize the non-reserved field values as a flat
name-to-value JSON object (the snapshot payload). -/
def encodeSnapshot (l : List (String × String)) : String :=
  ⟨'{' :: encSnapshotAux l ++ ['}']⟩

/-- Strict parser for the members of a flat string-to-string JSON object; the
fuel bounds the number of members and `input length` always suffices. -/
def pPairsF : Nat → List Char → Option (List (String × String) × List Char)
  | 0, _ => none
  | fuel + 1, l =>
    match l with
    | '"' :: cs =>
      match pStrAux (cs.length + 1) cs with
      | some (k, cs1) =>
        match cs1 with
        | ':' :: '"' :: cs2 =>
          match pStrAux (cs2.length + 1) cs2 with
          | some (v, cs3) =>
            match cs3 with
            | ',' :: cs4 =>
              match pPairsF fuel cs4 with
              | some (ps, cs5) => some ((⟨k⟩, ⟨v⟩) :: ps, cs5)
              | none => none
            | '}' :: cs4 => some ([(⟨k⟩, ⟨v⟩)], cs4)
            | _ => none
          | none => none
        | _ => none
      | none => none
    | _ => none

/-- Modelled from the spec: deserialize a snapshot payload, accepting exactly
the flat string-to-string JSON objects that `encodeSnapshot` produces and
rejecting everything else (a decode failure). -/
def decodeSnapshot (s : String) : Option (List (String × String)) :=
  match s.data with
  | '{' :: '}' :: [] => some []
  | '{' :: rest =>
    match pPairsF rest.length rest with
    | some (l, []) => some l
    | _ => none
  | _ => none

/-- Modelled from the spec: `snapshot(record)` — if the record defines the
reserved snapshot field, serialize all current non-reserved field values into
that field, overwriting any prior snapshot; otherwise do nothing. -/
def snapshot (r : List (String × String)) : List (String × String) :=
  if reservedFieldName ∈ r.map Prod.fst then
    setField r reservedFieldName
      (encodeSnapshot (r.filter (fun p => p.1 ≠ reservedFieldName)))
  else r

/-- Reported outcome of a `restore` call. -/
inductive RestoreReport where
  | nothingToUndo
  | decodeError
  | restored
deriving DecidableEq

/-- Overwrite each record field named in the decoded snapshot with its
snapshot value, skipping the reserved field name. -/
def restoreApply (r : List (String × String))
    (pairs : List (String × String)) : List (String × String) :=
  pairs.foldl
    (fun n p => if p.1 = reservedFieldName then n else setField n p.1 p.2) r

/-- Modelled from the spec: `restore(record)` — nothing to undo when the
reserved field is absent or empty; a decode error leaves all fields
unchanged; otherwise the snapshot values overwrite the named fields and the
reserved field is cleared to empty. -/
def restore (r : List (String × String)) :
    List (String × String) × RestoreReport :=
  match lookupKey reservedFieldName r with
  | none => (r, .nothingToUndo)
  | some s =>
    if s = "" then (r, .nothingToUndo)
    else
      match decodeSnapshot s with
      | none => (r, .decodeError)
      | some pairs =>
        (setField (restoreApply r pairs) reservedFieldName "", .restored)

/-! ### Association-list lemmas -/

theorem lookupKey_cons {α : Type} (k : String) (p : String × α)
    (ps : List (String × α)) :
    lookupKey k (p :: ps) = if p.1 = k then some p.2 else lookupKey k ps := rfl

theorem setField_cons {α : Type} (p : String × α) (ps : List (String × α))
    (k : String) (v : α) :
    setField (p :: ps) k v =
      (if p.1 = k then (k, v) else p) :: setField ps k v := by
  simp only [setField, List.map_cons]

theorem lookupKey_setField_ne {α : Type} (n : List (String × α)) {k k' : String}
    (v : α) (h : k ≠ k') : lookupKey k (setField n k' v) = lookupKey k n := by
  induction n with
  | nil => rfl
  | cons p ps ih =>
    rw [setField_cons]
    by_cases hp : p.1 = k'
    · rw [if_pos hp, lookupKey_cons, lookupKey_cons, ih]
      rw [if_neg (Ne.symm h), if_neg (fun hc => h (hp.symm.trans hc).symm)]
    · rw [if_neg hp, lookupKey_cons, lookupKey_cons, ih]

theorem lookupKey_setField_self {α : Type} (n : List (String × α))
    {k : String} (v : α) (h : k ∈ n.map Prod.fst) :
    lookupKey k (setField n k v) = some v := by
  induction n with
  | nil => simp at h
  | cons p ps ih =>
    rw [setField_cons]
    by_cases hp : p.1 = k
    · rw [if_pos hp, lookupKey_cons, if_pos rfl]
    · rw [if_neg hp, lookupKey_cons, if_neg hp]
      rw [List.map_cons, List.mem_cons] at h
      rcases h with h | h
      · exact absurd h.symm hp
      · exact ih h

theorem map_fst_setField {α : Type} (n : List (String × α)) (k : String)
    (v : α) : (setField n k v).map Prod.fst = n.map Prod.fst := by
  induction n with
  | nil => rfl
  | cons p ps ih =>
    rw [setField_cons, List.map_cons, List.map_cons, ih]
    by_cases hp : p.1 = k
    · rw [if_pos hp, hp]
    · rw [if_neg hp]

theorem lookupKey_eq_none_iff {α : Type} (l : List (String × α))
    (k : String) : lookupKey k l = none ↔ k ∉ l.map Prod.fst := by
  induction l with
  | nil => simp [lookupKey]
  | cons p ps ih =>
    rw [lookupKey_cons, List.map_cons, List.mem_cons]
    by_cases hp : p.1 = k
    · simp [hp]
    · simp only [if_neg hp, ih]
      constructor
      · intro hk hc
        rcases hc with hc | hc
        · exact hp hc.symm
        · exact hk hc
      · intro hc
        exact fun hk => hc (Or.inr hk)

theorem setField_of_not_mem {α : Type} (n : List (String × α))
    {k : String} (v : α) (h : k ∉ n.map Prod.fst) : setField n k v = n := by
  induction n with
  | nil => rfl
  | cons p ps ih =>
    rw [List.map_cons, List.mem_cons] at h
    push_neg at h
    rw [setField_cons, if_neg (fun hc => h.1 hc.symm), ih h.2]

theorem lookupKey_filter_ne (l : List (String × String)) (k res : String) :
    lookupKey k (l.filter (fun p => p.1 ≠ res)) =
      if k = res then none else lookupKey k l := by
  induction l with
  | nil => simp [lookupKey]
  | cons p ps ih =>
    rw [List.filter_cons]
    by_cases hp : p.1 = res
    · rw [if_neg (by simp [hp]), ih, lookupKey_cons]
      by_cases hk : k = res
      · rw [if_pos hk, if_pos hk]
      · rw [if_neg hk, if_neg hk, if_neg (fun hc => hk (hc.symm.trans hp))]
    · rw [if_pos (by simp [hp]), lookupKey_cons, lookupKey_cons, ih]
      by_cases hk : p.1 = k
      · rw [if_pos hk, if_pos hk, if_neg (fun hc => hp (hk.trans hc))]
      · rw [if_neg hk, if_neg hk]

theorem map_fst_filter_ne (l : List (String × String)) (res : String) :
    (l.filter (fun p => p.1 ≠ res)).map Prod.fst =
      (l.map Prod.fst).filter (fun k => k ≠ res) := by
  induction l with
  | nil => rfl
  | cons p ps ih =>
    rw [List.map_cons, List.filter_cons, List.filter_cons]
    by_cases hp : p.1 = res
    · rw [if_neg (by simp [hp]), if_neg (by simp [hp]), ih]
    · rw [if_pos (by simp [hp]), if_pos (by simp [hp]), List.map_cons, ih]

/-! ### Lemmas about the field-update loops -/

theorem applyCorrections_cons {α : Type} (note : List (String × α))
    (p : String × α) (ps : List (String × α)) :
    applyCorrections note (p :: ps) =
      applyCorrections
        (if p.1 ∈ note.map Prod.fst then setField note p.1 p.2 else note)
        ps := rfl

theorem map_fst_applyCorrections {α : Type} (note : List (String × α))
    (corrected : List (String × α)) :
    (applyCorrections note corrected).map Prod.fst = note.map Prod.fst := by
  induction corrected generalizing note with
  | nil => rfl
  | cons p ps ih =>
    rw [applyCorrections_cons, ih]
    by_cases hp : p.1 ∈ note.map Prod.fst
    · rw [if_pos hp, map_fst_setField]
    · rw [if_neg hp]

theorem lookupKey_applyCorrections_not_mem {α : Type}
    (note : List (String × α)) (corrected : List (String × α)) {k : String}
    (h : k ∉ corrected.map Prod.fst) :
    lookupKey k (applyCorrections note corrected) = lookupKey k note := by
  induction corrected generalizing note with
  | nil => rfl
  | cons p ps ih =>
    rw [List.map_cons, List.mem_cons] at h
    push_neg at h
    rw [applyCorrections_cons, ih _ h.2]
    by_cases hp : p.1 ∈ note.map Prod.fst
    · rw [if_pos hp, lookupKey_setField_ne _ _ (fun hc => h.1 hc)]
    · rw [if_neg hp]

theorem lookupKey_applyCorrections_mem {α : Type}
    (note : List (String × α)) (corrected : List (String × α)) {k : String}
    {v : α} (hnd : (corrected.map Prod.fst).Nodup)
    (hv : lookupKey k corrected = some v) (hk : k ∈ note.map Prod.fst) :
    lookupKey k (applyCorrections note corrected) = some v := by
  induction corrected generalizing note with
  | nil => simp [lookupKey] at hv
  | cons p ps ih =>
    rw [List.map_cons, List.nodup_cons] at hnd
    rw [lookupKey_cons] at hv
    rw [applyCorrections_cons]
    by_cases hp : p.1 = k
    · rw [if_pos hp] at hv
      rw [hp] at hnd
      rw [lookupKey_applyCorrections_not_mem _ _ hnd.1]
      rw [if_pos (hp ▸ hk)]
      rw [hp, lookupKey_setField_self _ _ hk]
      exact congrArg some (Option.some.inj hv)
    · rw [if_neg hp] at hv
      have hk' : k ∈ (if p.1 ∈ note.map Prod.fst
          then setField note p.1 p.2 else note).map Prod.fst := by
        by_cases hm : p.1 ∈ note.map Prod.fst
        · rw [if_pos hm, map_fst_setField]; exact hk
        · rw [if_neg hm]; exact hk
      exact ih _ hnd.2 hv hk'

theorem restoreApply_cons (r : List (String × String)) (p : String × String)
    (ps : List (String × String)) :
    restoreApply r (p :: ps) =
      restoreApply
        (if p.1 = reservedFieldName then r else setField r p.1 p.2) ps := rfl

theorem map_fst_restoreApply (r : List (String × String))
    (pairs : List (String × String)) :
    (restoreApply r pairs).map Prod.fst = r.map Prod.fst := by
  induction pairs generalizing r with
  | nil => rfl
  | cons p ps ih =>
    rw [restoreApply_cons, ih]
    by_cases hp : p.1 = reservedFieldName
    · rw [if_pos hp]
    · rw [if_neg hp, map_fst_setField]

theorem lookupKey_restoreApply_not_mem (r : List (String × String))
    (pairs : List (String × String)) {k : String}
    (h : k ∉ pairs.map Prod.fst) :
    lookupKey k (restoreApply r pairs) = lookupKey k r := by
  induction pairs generalizing r with
  | nil => rfl
  | cons p ps ih =>
    rw [List.map_cons, List.mem_cons] at h
    push_neg at h
    rw [restoreApply_cons, ih _ h.2]
    by_cases hp : p.1 = reservedFieldName
    · rw [if_pos hp]
    · rw [if_neg hp, lookupKey_setField_ne _ _ (fun hc => h.1 hc)]

theorem lookupKey_restoreApply_mem (r : List (String × String))
    (pairs : List (String × String)) {k : String} {v : String}
    (hnd : (pairs.map Prod.fst).Nodup) (hv : lookupKey k pairs = some v)
    (hres : k ≠ reservedFieldName) (hk : k ∈ r.map Prod.fst) :
    lookupKey k (restoreApply r pairs) = some v := by
  induction pairs generalizing r with
  | nil => simp [lookupKey] at hv
  | cons p ps ih =>
    rw [List.map_cons, List.nodup_cons] at hnd
    rw [lookupKey_cons] at hv
    rw [restoreApply_cons]
    by_cases hp : p.1 = k
    · rw [if_pos hp] at hv
      rw [hp] at hnd
      rw [lookupKey_restoreApply_not_mem _ _ hnd.1]
      rw [if_neg (hp ▸ (show ¬(k = reservedFieldName) from hres))]
      rw [hp, lookupKey_setField_self _ _ hk]
      exact congrArg some (Option.some.inj hv)
    · rw [if_neg hp] at hv
      have hk' : k ∈ (if p.1 = reservedFieldName
          then r else setField r p.1 p.2).map Prod.fst := by
        by_cases hm : p.1 = reservedFieldName
        · rw [if_pos hm]; exact hk
        · rw [if_neg hm, map_fst_setField]; exact hk
      exact ih _ hnd.2 hv hk'

/-! ### Snapshot codec round trip -/

theorem escChar_length_pos (c : Char) : 1 ≤ (escChar c).length := by
  unfold escChar
  repeat' split
  all_goals simp

theorem escList_length_ge (cs : List Char) :
    cs.length ≤ (escList cs).length := by
  induction cs with
  | nil => simp [escList]
  | cons c cs ih =>
    rw [escList, List.length_append, List.length_cons]
    have := escChar_length_pos c
    omega

theorem hexVal_hexDigitChar {n : Nat} (h : n < 16) :
    hexVal (hexDigitChar n) = some n := by
  interval_cases n <;> rfl

theorem pStrAux_escList (cs : List Char) :
    ∀ fuel rest, cs.length + 1 ≤ fuel →
      pStrAux fuel (escList cs ++ '"' :: rest) = some (cs, rest) := by
  induction cs with
  | nil =>
    intro fuel rest hf
    match fuel, hf with
    | fuel + 1, _ => simp [escList, pStrAux]
  | cons c cs ih =>
    intro fuel rest hf
    match fuel, hf with
    | fuel + 1, hf =>
      have hf' : cs.length + 1 ≤ fuel := by
        rw [List.length_cons] at hf; omega
      rw [escList]
      by_cases h1 : c = '"'
      · subst h1
        have he : escChar '"' = ['\\', '"'] := rfl
        rw [he]
        simp only [List.cons_append, List.nil_append, pStrAux]
        simp [ih fuel rest hf']
      · by_cases h2 : c = '\\'
        · subst h2
          have he : escChar '\\' = ['\\', '\\'] := rfl
          rw [he]
          simp only [List.cons_append, List.nil_append, pStrAux]
          simp [ih fuel rest hf']
        · by_cases h3 : c = '\n'
          · subst h3
            have he : escChar '\n' = ['\\', 'n'] := rfl
            rw [he]
            simp only [List.cons_append, List.nil_append, pStrAux]
            simp [ih fuel rest hf']
          · by_cases h4 : c = '\t'
            · subst h4
              have he : escChar '\t' = ['\\', 't'] := rfl
              rw [he]
              simp only [List.cons_append, List.nil_append, pStrAux]
              simp [ih fuel rest hf']
            · by_cases h5 : c = '\r'
              · subst h5
                have he : escChar '\r' = ['\\', 'r'] := rfl
                rw [he]
                simp only [List.cons_append, List.nil_append, pStrAux]
                simp [ih fuel rest hf']
              · by_cases h6 : c.toNat < 32
                · have he : escChar c = ['\\', 'u', '0', '0',
                      hexDigitChar (c.toNat / 16), hexDigitChar (c.toNat % 16)] := by
                    unfold escChar
                    rw [if_neg h1, if_neg h2, if_neg h3, if_neg h4, if_neg h5,
                      if_pos h6]
                  rw [he]
                  simp only [List.cons_append, List.nil_append, pStrAux]
                  have hd1 : hexVal (hexDigitChar (c.toNat / 16)) =
                      some (c.toNat / 16) := hexVal_hexDigitChar (by omega)
                  have hd2 : hexVal (hexDigitChar (c.toNat % 16)) =
                      some (c.toNat % 16) := hexVal_hexDigitChar (by omega)
                  have h00 : hexVal '0' = some 0 := rfl
                  simp [h00, hd1, hd2, ih fuel rest hf']
                  have hdm : c.toNat / 16 * 16 + c.toNat % 16 = c.toNat := by
                    omega
                  rw [hdm]
                  exact ⟨by omega, Char.ofNat_toNat c⟩
                · have he : escChar c = [c] := by
                    unfold escChar
                    rw [if_neg h1, if_neg h2, if_neg h3, if_neg h4, if_neg h5,
                      if_neg h6]
                  rw [he]
                  simp only [List.cons_append, List.nil_append, pStrAux]
                  rw [if_neg h1, if_neg h2, if_neg h6]
                  simp [ih fuel rest hf']

theorem encSnapshotAux_length_ge (l : List (String × String)) :
    l.length ≤ (encSnapshotAux l).length := by
  induction l with
  | nil => simp [encSnapshotAux]
  | cons p ps ih =>
    cases ps with
    | nil => simp [encSnapshotAux, encPair]
    | cons q rest =>
      rw [encSnapshotAux, List.length_append, List.length_cons]
      have : 1 ≤ (encPair p).length := by simp [encPair]
      simp only [List.length_cons] at *
      omega

theorem pPairsF_enc (l : List (String × String)) :
    ∀ (p : String × String) (fuel : Nat) (rest : List Char),
      (p :: l).length ≤ fuel →
      pPairsF fuel (encSnapshotAux (p :: l) ++ '}' :: rest) =
        some (p :: l, rest) := by
  induction l with
  | nil =>
    intro p fuel rest hf
    match fuel, hf with
    | fuel + 1, _ =>
      have hshape : encSnapshotAux [p] ++ '}' :: rest =
          '"' :: (escList p.1.data ++
            '"' :: ':' :: '"' :: (escList p.2.data ++ '"' :: ('}' :: rest))) := by
        simp [encSnapshotAux, encPair]
      rw [hshape]
      simp only [pPairsF]
      rw [pStrAux_escList p.1.data _ _ (by
        have := escList_length_ge p.1.data
        simp only [List.length_append, List.length_cons]
        omega)]
      simp only []
      rw [pStrAux_escList p.2.data _ _ (by
        have := escList_length_ge p.2.data
        simp only [List.length_append, List.length_cons]
        omega)]
      rfl
  | cons q l ih =>
    intro p fuel rest hf
    match fuel, hf with
    | fuel + 1, hf =>
      have hf' : (q :: l).length ≤ fuel := by
        simp only [List.length_cons] at hf ⊢; omega
      have hshape : encSnapshotAux (p :: q :: l) ++ '}' :: rest =
          '"' :: (escList p.1.data ++
            '"' :: ':' :: '"' :: (escList p.2.data ++
              '"' :: (',' :: (encSnapshotAux (q :: l) ++ '}' :: rest)))) := by
        simp [encSnapshotAux, encPair]
      rw [hshape]
      simp only [pPairsF]
      rw [pStrAux_escList p.1.data _ _ (by
        have := escList_length_ge p.1.data
        simp only [List.length_append, List.length_cons]
        omega)]
      simp only []
      rw [pStrAux_escList p.2.data _ _ (by
        have := escList_length_ge p.2.data
        simp only [List.length_append, List.length_cons]
        omega)]
      simp only []
      rw [ih q fuel rest hf']

theorem encSnapshotAux_cons_shape (p : String × String)
    (l : List (String × String)) :
    ∃ t, encSnapshotAux (p :: l) = '"' :: t := by
  cases l with
  | nil =>
    refine ⟨escList p.1.data ++ '"' :: ':' :: '"' :: (escList p.2.data ++ ['"']), ?_⟩
    simp [encSnapshotAux, encPair]
  | cons q rest =>
    refine ⟨escList p.1.data ++
      '"' :: ':' :: '"' :: (escList p.2.data ++ '"' :: ',' :: encSnapshotAux (q :: rest)), ?_⟩
    simp [encSnapshotAux, encPair]

/-- The snapshot codec round trip: decoding an encoded snapshot recovers the
field list exactly. -/
theorem decodeSnapshot_encodeSnapshot (l : List (String × String)) :
    decodeSnapshot (encodeSnapshot l) = some l := by
  cases l with
  | nil => rfl
  | cons p ps =>
    obtain ⟨t, ht⟩ := encSnapshotAux_cons_shape p ps
    have hdata : (encodeSnapshot (p :: ps)).data =
        '{' :: '"' :: (t ++ ['}']) := by
      simp [encodeSnapshot, ht]
    have hlen : (p :: ps).length ≤ ('"' :: (t ++ ['}'])).length := by
      have h1 := encSnapshotAux_length_ge (p :: ps)
      have h2 : (encSnapshotAux (p :: ps)).length = ('"' :: t).length := by
        rw [ht]
      simp only [List.length_cons, List.length_append] at *
      omega
    have happ : ('"' : Char) :: (t ++ ['}']) =
        encSnapshotAux (p :: ps) ++ '}' :: [] := by
      rw [ht]; simp
    rw [decodeSnapshot, hdata]
    split
    next heq => simp at heq
    next _ rest hne heq =>
      have hrest : rest = '"' :: (t ++ ['}']) := by
        injection heq with h1 h2
        exact h2.symm
      subst hrest
      rw [happ, pPairsF_enc ps p _ [] (by rw [← happ]; exact hlen)]
    next h1 h2 => exact (h2 _ rfl).elim

theorem encodeSnapshot_ne_empty (l : List (String × String)) :
    encodeSnapshot l ≠ "" := by
  intro h
  have := congrArg String.data h
  simp [encodeSnapshot] at this

/-! ### The parser rejects markdown-fenced text -/

theorem skipWs_cons_not_ws {c : Char} (cs : List Char)
    (h : ¬(c = ' ' ∨ c = '\n' ∨ c = '\t' ∨ c = '\r')) :
    skipWs (c :: cs) = c :: cs := by
  rw [skipWs, if_neg h]

theorem pValue_backtick (fuel : Nat) (rest : List Char) :
    pValue fuel (Char.ofNat 96 :: rest) = none := by
  cases fuel with
  | zero => rfl
  | succ fuel =>
    rw [pValue, skipWs_cons_not_ws rest (by decide)]
    simp

theorem fenced_data (s : String) :
    ("```json\n" ++ s ++ "\n```").data =
      Char.ofNat 96 :: ("``json\n".data ++ s.data ++ "\n```".data) := by
  rw [String.data_append, String.data_append]
  have h : "```json\n".data = Char.ofNat 96 :: "``json\n".data := by decide
  rw [h]
  simp

/-- A response wrapped in a markdown code fence never parses: `json.loads`
fails on the leading backtick. -/
theorem json_loads_fenced (s : String) :
    json_loads ("```json\n" ++ s ++ "\n```") = none := by
  rw [json_loads, fenced_data, pValue_backtick]

/-! ### Claim C1 — Schema Builder -/

/-- C1 counterexample: at the field set `[("OriginalContent", "old")]` the
schema built by `check_grammar` does not exclude the reserved snapshot field
name and its required list is not the field set minus the reserved field:
the code builds one property per given field with no exclusion. -/
theorem C1_counterexample :
    ¬(reservedFieldName ∉
        ((json_schema [("OriginalContent", "old")]).corrected_fields.properties.map
          Prod.fst)
      ∧ (json_schema [("OriginalContent", "old")]).corrected_fields.required = []) := by
  decide

/-- C1 (amended): for every field mapping `F` given to the schema builder,
the built correction schema contains exactly one string-typed property per
field of `F` — including the reserved snapshot field name when present, which
is not excluded — each carrying the description "Corrected text for field: X",
and its required-property list equals the full key list of `F` (not `F` minus
the reserved field). -/
theorem C1_schema_builder (fields : List (String × String)) :
    ((json_schema fields).corrected_fields.properties.map Prod.fst =
      fields.map Prod.fst)
    ∧ (∀ p ∈ (json_schema fields).corrected_fields.properties,
        p.2.type = "string"
        ∧ p.2.description = "Corrected text for field: " ++ p.1)
    ∧ (json_schema fields).corrected_fields.required = fields.map Prod.fst := by
  refine ⟨?_, ?_, rfl⟩
  · simp [json_schema, fields_schema]
  · intro p hp
    simp only [json_schema, fields_schema] at hp
    rcases List.mem_map.mp hp with ⟨a, _, rfl⟩
    exact ⟨rfl, rfl⟩

/-- C1 witness: the amended schema-builder property evaluated at the field
set `[("Front", "v")]`. -/
theorem C1_schema_builder_witness :
    (json_schema [("Front", "v")]).corrected_fields.properties.map Prod.fst =
      ["Front"]
    ∧ ("Front",
        (⟨"string", "Corrected text for field: Front"⟩ : FieldProp)).2.type =
      "string" :=
  ⟨(C1_schema_builder [("Front", "v")]).1,
    ((C1_schema_builder [("Front", "v")]).2.1
      ("Front", ⟨"string", "Corrected text for field: Front"⟩) (by decide)).1⟩

/-! ### Claim C2 — no response validation -/

/-- C2 counterexample: a parsed response whose `corrected_fields` object
carries a key ("Alien") outside the expected field set (`Front`) is returned
as a correction result with no validation error signalled. -/
theorem C2_counterexample :
    (check_grammar ⟨some "k", none⟩ [("Front", "a")]
        (.success "\x7b\"corrected_fields\":\x7b\"Alien\":\"x\"\x7d\x7d")).result
      = some (.obj [("Alien", .str "x")])
    ∧ (check_grammar ⟨some "k", none⟩ [("Front", "a")]
        (.success "\x7b\"corrected_fields\":\x7b\"Alien\":\"x\"\x7d\x7d")).infoMessages
      = [] :=
  ⟨rfl, rfl⟩

/-- C2 (amended): `check_grammar` performs no validation of the parsed
response: whatever object the `corrected_fields` key holds is returned
unchanged — regardless of keys outside the expected field set or non-string
values — with no error signalled; unexpected keys are only silently skipped
later at application time. -/
theorem C2_no_validation (cfg : Config) (fields : List (String × String))
    (text : String) (kvs : List (String × JSON)) (inner : JSON)
    (hkey : get_api_key cfg ≠ "")
    (hparse : json_loads text = some (.obj kvs))
    (hcf : lookupKey "corrected_fields" kvs = some inner) :
    check_grammar cfg fields (.success text) =
      { result := some inner, infoMessages := [], requestSent := true } := by
  simp only [check_grammar]
  rw [if_neg hkey, hparse]
  simp [hcf]

/-- C2 witness: a response assigning the non-string value `3` to the expected
field `Front` is returned unvalidated. -/
theorem C2_no_validation_witness :
    check_grammar ⟨some "k", none⟩ [("Front", "a")]
        (.success "\x7b\"corrected_fields\":\x7b\"Front\":3\x7d\x7d") =
      { result := some (.obj [("Front", .num 3)]), infoMessages := [],
        requestSent := true } :=
  C2_no_validation ⟨some "k", none⟩ [("Front", "a")] _
    [("corrected_fields", .obj [("Front", .num 3)])] _ (by decide) rfl rfl

/-! ### Claim C3 — no fence stripping -/

/-- C3 counterexample: the fenced response text fails to parse and yields a
`None` result, while the identical text without the fence parses and yields
the correction mapping — the fence is not stripped. -/
theorem C3_counterexample :
    (check_grammar ⟨some "k", none⟩ [("A", "y")]
        (.success "```json\n\x7b\"corrected_fields\":\x7b\"A\":\"x\"\x7d\x7d\n```")).result
      = none
    ∧ (check_grammar ⟨some "k", none⟩ [("A", "y")]
        (.success "\x7b\"corrected_fields\":\x7b\"A\":\"x\"\x7d\x7d")).result
      = some (.obj [("A", .str "x")]) :=
  ⟨rfl, rfl⟩

/-- C3 (amended): `check_grammar` performs no fence stripping: every response
wrapped in a JSON-labeled fenced code block fails JSON parsing (the parse
error is caught and reported) and produces no correction result, unlike the
same text without the fence. -/
theorem C3_no_fence_stripping (cfg : Config) (fields : List (String × String))
    (s : String) (hkey : get_api_key cfg ≠ "") :
    check_grammar cfg fields (.success ("```json\n" ++ s ++ "\n```")) =
      { result := none,
        infoMessages := ["Error during grammar check: JSONDecodeError"],
        requestSent := true } := by
  simp only [check_grammar]
  rw [if_neg hkey, json_loads_fenced]

/-- C3 witness: the no-fence-stripping theorem evaluated on the fenced body
"x" with a configured key. -/
theorem C3_no_fence_stripping_witness :
    check_grammar ⟨some "k", none⟩ [] (.success ("```json\n" ++ "x" ++ "\n```")) =
      { result := none,
        infoMessages := ["Error during grammar check: JSONDecodeError"],
        requestSent := true } :=
  C3_no_fence_stripping ⟨some "k", none⟩ [] "x" (by decide)

/-! ### Claim C4 — snapshot/restore round trip -/

/-- C4: for every record (with its invariant of unique field names) that
defines the reserved snapshot field, snapshot followed immediately by restore
succeeds, restores every non-reserved field to its pre-snapshot value, and
leaves the reserved field empty. -/
theorem C4_snapshot_restore_roundtrip (r : List (String × String))
    (hnd : (r.map Prod.fst).Nodup)
    (hres : reservedFieldName ∈ r.map Prod.fst) :
    (restore (snapshot r)).2 = RestoreReport.restored
    ∧ lookupKey reservedFieldName (restore (snapshot r)).1 = some ""
    ∧ ∀ k, k ≠ reservedFieldName →
        lookupKey k (restore (snapshot r)).1 = lookupKey k r := by
  have hsnap : snapshot r =
      setField r reservedFieldName
        (encodeSnapshot (r.filter (fun p => p.1 ≠ reservedFieldName))) := by
    rw [snapshot, if_pos hres]
  have hlook : lookupKey reservedFieldName (snapshot r) =
      some (encodeSnapshot (r.filter (fun p => p.1 ≠ reservedFieldName))) := by
    rw [hsnap]
    exact lookupKey_setField_self r _ hres
  have hrest : restore (snapshot r) =
      (setField
        (restoreApply (snapshot r)
          (r.filter (fun p => p.1 ≠ reservedFieldName)))
        reservedFieldName "", RestoreReport.restored) := by
    rw [restore, hlook]
    simp [encodeSnapshot_ne_empty, decodeSnapshot_encodeSnapshot]
  have hkeys_snap : (snapshot r).map Prod.fst = r.map Prod.fst := by
    rw [hsnap, map_fst_setField]
  have hkeys_ra :
      (restoreApply (snapshot r)
        (r.filter (fun p => p.1 ≠ reservedFieldName))).map Prod.fst =
      r.map Prod.fst := by
    rw [map_fst_restoreApply, hkeys_snap]
  refine ⟨by rw [hrest], ?_, ?_⟩
  · rw [hrest]
    exact lookupKey_setField_self _ "" (by rw [hkeys_ra]; exact hres)
  · intro k hk
    rw [hrest]
    rw [lookupKey_setField_ne _ _ hk]
    have hflt : lookupKey k (r.filter (fun p => p.1 ≠ reservedFieldName)) =
        lookupKey k r := by
      rw [lookupKey_filter_ne, if_neg hk]
    by_cases hmem : k ∈ r.map Prod.fst
    · rcases hv : lookupKey k r with _ | v
      · exact absurd ((lookupKey_eq_none_iff r k).mp hv) (by simpa using hmem)
      · refine lookupKey_restoreApply_mem _ _ ?_ (hflt.trans hv) hk
          (by rw [hkeys_snap]; exact hmem)
        rw [map_fst_filter_ne]
        exact hnd.filter _
    · rw [lookupKey_restoreApply_not_mem]
      · rw [hsnap, lookupKey_setField_ne _ _ hk]
      · intro hc
        rw [map_fst_filter_ne] at hc
        exact hmem (List.mem_of_mem_filter hc)

/-- C4 witness: the round trip evaluated on the record
`[("Front", "a"), ("OriginalContent", "")]`. -/
theorem C4_snapshot_restore_roundtrip_witness :
    (restore (snapshot [("Front", "a"), ("OriginalContent", "")])).2 =
      RestoreReport.restored
    ∧ lookupKey "OriginalContent"
        (restore (snapshot [("Front", "a"), ("OriginalContent", "")])).1 =
      some ""
    ∧ lookupKey "Front"
        (restore (snapshot [("Front", "a"), ("OriginalContent", "")])).1 =
      lookupKey "Front" [("Front", "a"), ("OriginalContent", "")] :=
  have h := C4_snapshot_restore_roundtrip
    [("Front", "a"), ("OriginalContent", "")] (by decide) (by decide)
  ⟨h.1, h.2.1, h.2.2 "Front" (by decide)⟩

/-! ### Claim C5 — error handling of the correction request -/

/-- C5: for every configuration, field mapping and API outcome, a missing or
empty API credential yields a user-visible message and a null result with no
request sent, and every failing API outcome (bad request or any other raised
exception: connection failure, rate limit, non-2xx status) is caught and
converted to a user-visible message and a null result — `check_grammar`
totally returns an outcome, so no listed error condition is fatal. -/
theorem C5_error_handling (cfg : Config) (fields : List (String × String))
    (api : ApiResult) :
    (get_api_key cfg = "" →
      check_grammar cfg fields api =
        { result := none,
          infoMessages :=
            ["Please set your OpenAI API key in the add-on config."],
          requestSent := false })
    ∧ (∀ e, api = ApiResult.badRequest e →
        (check_grammar cfg fields api).result = none
        ∧ (check_grammar cfg fields api).infoMessages ≠ [])
    ∧ (∀ e, api = ApiResult.exn e →
        (check_grammar cfg fields api).result = none
        ∧ (check_grammar cfg fields api).infoMessages ≠ []) := by
  refine ⟨?_, ?_, ?_⟩
  · intro h
    simp only [check_grammar]
    rw [if_pos h]
  · rintro e rfl
    by_cases hk : get_api_key cfg = ""
    · simp only [check_grammar]
      rw [if_pos hk]
      exact ⟨rfl, by simp⟩
    · simp only [check_grammar]
      rw [if_neg hk]
      by_cases hr : containsSub e.toLower "refusal" = true
      · rw [if_pos hr]
        exact ⟨rfl, by simp⟩
      · rw [if_neg hr]
        exact ⟨rfl, by simp⟩
  · rintro e rfl
    by_cases hk : get_api_key cfg = ""
    · simp only [check_grammar]
      rw [if_pos hk]
      exact ⟨rfl, by simp⟩
    · simp only [check_grammar]
      rw [if_neg hk]
      exact ⟨rfl, by simp⟩

/-- C5 witness: the three error paths evaluated concretely — no credential
(request never sent), a bad-request rejection, and a connection exception. -/
theorem C5_error_handling_witness :
    check_grammar ⟨none, none⟩ [] (.success "x") =
      { result := none,
        infoMessages := ["Please set your OpenAI API key in the add-on config."],
        requestSent := false }
    ∧ (check_grammar ⟨some "k", none⟩ [] (.badRequest "boom")).result = none
    ∧ (check_grammar ⟨some "k", none⟩ [] (.exn "connection down")).result = none :=
  ⟨(C5_error_handling ⟨none, none⟩ [] (.success "x")).1 rfl,
    ((C5_error_handling ⟨some "k", none⟩ [] (.badRequest "boom")).2.1
      "boom" rfl).1,
    ((C5_error_handling ⟨some "k", none⟩ [] (.exn "connection down")).2.2
      "connection down" rfl).1⟩

/-! ### Claim C6 — partial-safe application of corrections -/

/-- C6: for every note and correction result whose keys (pairwise distinct,
as parsed from a JSON object) all name fields of the note, applying the
result sets exactly the named fields to their corrected values, and every
field absent from the result keeps its prior value. -/
theorem C6_partial_application {α : Type} (note corrected : List (String × α))
    (hnd : (corrected.map Prod.fst).Nodup)
    (hsub : ∀ k ∈ corrected.map Prod.fst, k ∈ note.map Prod.fst) :
    (∀ k v, lookupKey k corrected = some v →
      lookupKey k (applyCorrections note corrected) = some v)
    ∧ ∀ k, k ∉ corrected.map Prod.fst →
        lookupKey k (applyCorrections note corrected) = lookupKey k note := by
  constructor
  · intro k v hv
    refine lookupKey_applyCorrections_mem note corrected hnd hv (hsub k ?_)
    by_contra hmem
    rw [(lookupKey_eq_none_iff corrected k).mpr hmem] at hv
    exact Option.noConfusion hv
  · intro k hmem
    exact lookupKey_applyCorrections_not_mem note corrected hmem

/-- C6 witness: applying `[("Front", "c")]` to the two-field note changes
`Front` and leaves `Back` untouched. -/
theorem C6_partial_application_witness :
    lookupKey "Front"
      (applyCorrections [("Front", "a"), ("Back", "b")] [("Front", "c")]) =
      some "c"
    ∧ lookupKey "Back"
        (applyCorrections [("Front", "a"), ("Back", "b")] [("Front", "c")]) =
      lookupKey "Back" [("Front", "a"), ("Back", "b")] :=
  have h := C6_partial_application [("Front", "a"), ("Back", "b")]
    [("Front", "c")] (by decide) (by decide)
  ⟨h.1 "Front" "c" rfl, h.2 "Back" (by decide)⟩

/-! ### Claim C7 — restore twice -/

/-- C7 counterexample: on the record whose reserved field holds the
non-decodable, non-empty snapshot "x", the second of two consecutive restores
reports a decode error, not "nothing to undo". -/
theorem C7_counterexample :
    (restore (restore [("OriginalContent", "x")]).1).2 ≠
      RestoreReport.nothingToUndo := by
  decide

/-- C7 (amended): for every record whose first restore does not fail with a
decode error, the second of two consecutive restores reports "nothing to
undo" and leaves every field unchanged.  (A record whose reserved field holds
a non-empty, non-decodable value reports a decode error on both calls
instead, because a failed restore leaves the corrupt snapshot in place.) -/
theorem C7_restore_idempotent (r : List (String × String))
    (h : (restore r).2 ≠ RestoreReport.decodeError) :
    (restore (restore r).1).2 = RestoreReport.nothingToUndo
    ∧ (restore (restore r).1).1 = (restore r).1 := by
  rcases hl : lookupKey reservedFieldName r with _ | s
  · have hr : restore r = (r, RestoreReport.nothingToUndo) := by
      rw [restore, hl]
    rw [hr]
    have : restore r = (r, RestoreReport.nothingToUndo) := hr
    rw [show (r, RestoreReport.nothingToUndo).1 = r from rfl, hr]
    exact ⟨rfl, rfl⟩
  · by_cases hs : s = ""
    · have hr : restore r = (r, RestoreReport.nothingToUndo) := by
        rw [restore, hl]
        simp [hs]
      rw [hr]
      rw [show (r, RestoreReport.nothingToUndo).1 = r from rfl, hr]
      exact ⟨rfl, rfl⟩
    · rcases hd : decodeSnapshot s with _ | pairs
      · exfalso
        apply h
        rw [restore, hl]
        simp [hs, hd]
      · have hr : restore r =
            (setField (restoreApply r pairs) reservedFieldName "",
              RestoreReport.restored) := by
          rw [restore, hl]
          simp [hs, hd]
        rw [hr]
        have hres : reservedFieldName ∈ r.map Prod.fst := by
          by_contra hmem
          rw [(lookupKey_eq_none_iff r reservedFieldName).mpr hmem] at hl
          exact Option.noConfusion hl
        have hlook2 : lookupKey reservedFieldName
            (setField (restoreApply r pairs) reservedFieldName "") = some "" := by
          refine lookupKey_setField_self _ "" ?_
          rw [map_fst_restoreApply]
          exact hres
        constructor
        · rw [restore, hlook2]
          simp
        · rw [restore, hlook2]
          simp

/-- C7 witness: the amended idempotence property evaluated on a record whose
reserved field is empty (first restore already reports nothing to undo). -/
theorem C7_restore_idempotent_witness :
    (restore (restore [("OriginalContent", "")]).1).2 =
      RestoreReport.nothingToUndo
    ∧ (restore (restore [("OriginalContent", "")]).1).1 =
      (restore [("OriginalContent", "")]).1 :=
  C7_restore_idempotent [("OriginalContent", "")] (by decide)

/-! ### Claim C8 — model configuration default -/

/-- C8: for every configuration, an absent `model` key makes `get_model`
return the fixed default "gpt-4o", and a present key is returned unchanged. -/
theorem C8_model_default (c : Config) :
    (c.model = none → get_model c = "gpt-4o")
    ∧ ∀ s, c.model = some s → get_model c = s := by
  constructor
  · intro h
    simp [get_model, h]
  · intro s h
    simp [get_model, h]

/-- C8 witness: the default and the pass-through evaluated on concrete
configurations. -/
theorem C8_model_default_witness :
    get_model ⟨some "k", none⟩ = "gpt-4o"
    ∧ get_model ⟨some "k", some "gpt-4o-mini"⟩ = "gpt-4o-mini" :=
  ⟨(C8_model_default ⟨some "k", none⟩).1 rfl,
    (C8_model_default ⟨some "k", some "gpt-4o-mini"⟩).2 "gpt-4o-mini" rfl⟩

/-! ### Claim C9 — the note's key set is invariant -/

/-- C9: applying a correction result never adds a field name to the note:
the key list is invariant under `applyCorrections`, and a result entry whose
key is not already a field of the note is silently skipped (looking it up in
the updated note still yields nothing). -/
theorem C9_keys_invariant {α : Type} (note corrected : List (String × α)) :
    (applyCorrections note corrected).map Prod.fst = note.map Prod.fst
    ∧ ∀ k, k ∉ note.map Prod.fst →
        lookupKey k (applyCorrections note corrected) = none := by
  refine ⟨map_fst_applyCorrections note corrected, ?_⟩
  intro k hk
  rw [lookupKey_eq_none_iff, map_fst_applyCorrections]
  exact hk

/-- C9 witness: a correction entry for the non-existent field "New" is
skipped and the key list is unchanged. -/
theorem C9_keys_invariant_witness :
    (applyCorrections [("Front", JSON.str "a")]
        [("New", JSON.str "x")]).map Prod.fst =
      [("Front", JSON.str "a")].map Prod.fst
    ∧ lookupKey "New"
        (applyCorrections [("Front", JSON.str "a")] [("New", JSON.str "x")]) =
      none :=
  have h := C9_keys_invariant [("Front", JSON.str "a")] [("New", JSON.str "x")]
  ⟨h.1, h.2 "New" (by decide)⟩

/-! ### Claim C10 — missing corrected_fields key means no-op failure -/

/-- C10: for every response whose parsed JSON object lacks the
"corrected_fields" key, `check_grammar` returns the empty mapping, and the
caller treats that falsy value as failure: the note is unchanged, not
reloaded, and no success tooltip is shown. -/
theorem C10_missing_key_noop (cfg : Config) (fields : List (String × String))
    (note : List (String × JSON)) (text : String)
    (kvs : List (String × JSON)) (hkey : get_api_key cfg ≠ "")
    (hparse : json_loads text = some (.obj kvs))
    (hcf : lookupKey "corrected_fields" kvs = none) :
    (check_grammar cfg fields (.success text)).result = some (.obj [])
    ∧ on_grammar_check note
        (check_grammar cfg fields (.success text)).result =
      some (note, false, false) := by
  have hres : (check_grammar cfg fields (.success text)).result =
      some (.obj []) := by
    simp only [check_grammar]
    rw [if_neg hkey, hparse]
    simp [hcf]
  refine ⟨hres, ?_⟩
  rw [hres]
  rfl

/-- C10 witness: the no-op failure path evaluated on the response text `{}`
(no "corrected_fields" key) with a one-field note. -/
theorem C10_missing_key_noop_witness :
    (check_grammar ⟨some "k", none⟩ [("Front", "a")]
        (.success "\x7b\x7d")).result = some (.obj [])
    ∧ on_grammar_check [("Front", JSON.str "a")]
        (check_grammar ⟨some "k", none⟩ [("Front", "a")]
          (.success "\x7b\x7d")).result =
      some ([("Front", JSON.str "a")], false, false) :=
  C10_missing_key_noop ⟨some "k", none⟩ [("Front", "a")]
    [("Front", JSON.str "a")] "\x7b\x7d" [] (by decide) rfl rfl

end GrammarGPT
